import Mathlib

/-!
Verification of the cosine-bell convergence analysis step
(polaris/ocean/tasks/cosine_bell/analysis.py).

The module under study has two parts:

* `Analysis.rmse` — matches the configured evaluation time against the
  output time stamps, advects the bell center along the equator, builds
  the analytic tracer field and returns the root-mean-square error
  against the modeled tracer field together with the cell count;
* `Analysis.run` — collects (cell count, RMSE) pairs, fits a line to the
  base-10 log-log data with np.polyfit(..., 1), reports the convergence
  order conv = abs(slope) * 2, saves convergence.png, and checks conv
  against configured thresholds (hard failure below the minimum, warning
  above the maximum).

The definitions below are shallow embeddings of those code paths: numpy
floating point arrays become functions Fin n to the reals, numpy scalars
become reals, the time stamps parsed by fixed character offsets become a
structure holding the day / hour / minute fields, and the effectful tail
of run (savefig, raise, warn) becomes an explicit event trace.
-/

namespace Polaris

/-- Fields of one xtime entry as the code reads them by character offsets:
tt[10:12] is the day, tt[13:15] the hour, tt[16:18] the minute. -/
structure Timestamp where
  day : ℕ
  hour : ℕ
  minute : ℕ
deriving DecidableEq, Repr

/-- Index search of Analysis.rmse (the loop over xtime with break): the first
j whose day count DY = float(tt[10:12]) - 1 equals convergence_eval_time,
if any. -/
def findSliceTime : List Timestamp → ℚ → Option ℕ
  | [], _ => none
  | ts :: rest, evalTime =>
    if (ts.day : ℚ) - 1 = evalTime then some 0
    else (findSliceTime rest evalTime).map (· + 1)

/-- Failure modes of the time-matching phase of Analysis.rmse. -/
inductive TimeMatchFailure where
  | unboundLocalVar (varName : String)
  | explicitNoMatch (msg : String)
deriving DecidableEq, Repr

/-- Time matching as the code behaves: when some step matches, its index
sliceTime is returned; when no step matches, the loop finishes without ever
assigning sliceTime and the later subscript ds.tracer1[sliceTime, :, 0]
raises UnboundLocalError, which we model as the unboundLocalVar failure.
The code never produces an explicit "no matching time step" failure. -/
def timeMatch (xtime : List Timestamp) (evalTime : ℚ) :
    Except TimeMatchFailure ℕ :=
  match findSliceTime xtime evalTime with
  | some j => Except.ok j
  | none => Except.error (TimeMatchFailure.unboundLocalVar "sliceTime")

noncomputable section

/-- Elapsed time as computed by the line t = 86400.0 * DY + HR * 3600. + MN
of Analysis.rmse. The minute field is added unscaled. -/
def tElapsed (DY HR MN : ℝ) : ℝ := 86400.0 * DY + HR * 3600.0 + MN

/-- Distance travelled by the bell center,
distTrav = 2.0 * 3.14159265 * R / (86400.0 * convergence_eval_time) * t. -/
def distTrav (R evalTime t : ℝ) : ℝ :=
  2.0 * 3.14159265 * R / (86400.0 * evalTime) * t

/-- Drift in radians, distRad = distTrav / R. -/
def distRad (R evalTime t : ℝ) : ℝ := distTrav R evalTime t / R

/-- New bell-center longitude: newLon = lonCent + distRad, then one
conditional subtraction of two pi (the condition uses np.pi). -/
def newLon (lonCent dRad : ℝ) : ℝ :=
  if lonCent + dRad > 2 * Real.pi then lonCent + dRad - 2 * Real.pi
  else lonCent + dRad

/-- Great-circle distance of a cell at (lat, lon) from the advected center
(latCent, nLon): temp = R * arccos(sin latCent sin lat +
cos latCent cos lat cos(lon - nLon)). -/
def greatCircleDist (R latCent lat lon nLon : ℝ) : ℝ :=
  R * Real.arccos (Real.sin latCent * Real.sin lat +
    Real.cos latCent * Real.cos lat * Real.cos (lon - nLon))

/-- Analytic tracer value at one cell: the code masks cells with
temp < radius and writes psi0 / 2 * (1 + cos(3.1415926 * temp / radius))
there, leaving the zeros of np.zeros_like elsewhere. The pi constant is
the literal 3.1415926 of the source. -/
def analyticTracer (R latCent nLon radius psi0 lat lon : ℝ) : ℝ :=
  if greatCircleDist R latCent lat lon nLon < radius then
    psi0 / 2 * (1 + Real.cos (3.1415926 * greatCircleDist R latCent lat lon nLon / radius))
  else 0

/-- Root-mean-square error between the modeled and the analytic tracer
fields: rmseValue = np.sqrt(np.mean((tracerF - tracer)**2)). -/
def rmseOf {n : ℕ} (modeled analytic : Fin n → ℝ) : ℝ :=
  Real.sqrt ((∑ i, (modeled i - analytic i) ^ 2) / (n : ℝ))

/-- Base-10 logarithm, np.log10. -/
def log10 (x : ℝ) : ℝ := Real.log x / Real.log 10

/-- Denominator n * sum x^2 - (sum x)^2 of the closed-form least-squares
slope through the points (x i, y i). -/
def lsqDenom {n : ℕ} (x : Fin n → ℝ) : ℝ :=
  (n : ℝ) * (∑ i, x i ^ 2) - (∑ i, x i) ^ 2

/-- Slope p[0] of np.polyfit(x, y, 1), the least-squares regression line
through the points (x i, y i), in closed form. -/
def lsqSlope {n : ℕ} (x y : Fin n → ℝ) : ℝ :=
  ((n : ℝ) * (∑ i, x i * y i) - (∑ i, x i) * (∑ i, y i)) / lsqDenom x

/-- Intercept p[1] of np.polyfit(x, y, 1). -/
def lsqIntercept {n : ℕ} (x y : Fin n → ℝ) : ℝ :=
  ((∑ i, y i) - lsqSlope x y * (∑ i, x i)) / (n : ℝ)

/-- Sum of squared residuals of the line y = m x + b over the data set,
the quantity np.polyfit minimizes for degree one. -/
def lsqSSE {n : ℕ} (x y : Fin n → ℝ) (m b : ℝ) : ℝ :=
  ∑ i, (y i - (m * x i + b)) ^ 2

/-- Convergence order conv = abs(p[0]) * 2.0 computed by Analysis.run from
xdata (cell counts) and ydata (RMSE values) after taking base-10 logs. -/
def convOrder {n : ℕ} (xdata ydata : Fin n → ℝ) : ℝ :=
  |lsqSlope (fun i => log10 (xdata i)) (fun i => log10 (ydata i))| * 2

/-- Outcome of the threshold check at the end of Analysis.run. -/
inductive Outcome where
  | fail
  | warned
  | pass
deriving DecidableEq, Repr

/-- Threshold logic of Analysis.run: raise ValueError when
conv < conv_thresh, otherwise warn when conv > conv_max, otherwise pass. -/
def checkThresholds (conv convThresh convMax : ℝ) : Outcome :=
  if conv < convThresh then Outcome.fail
  else if conv > convMax then Outcome.warned
  else Outcome.pass

/-- Observable effects of the tail of Analysis.run. -/
inductive RunEvent where
  | savefig
  | raiseFail
  | warnHigh
deriving DecidableEq, Repr

/-- Events produced by the threshold check. -/
def outcomeEvents : Outcome → List RunEvent
  | Outcome.fail => [RunEvent.raiseFail]
  | Outcome.warned => [RunEvent.warnHigh]
  | Outcome.pass => []

/-- Ordered event trace of the tail of Analysis.run: the call
plt.savefig("convergence.png") comes first, then the threshold check
raises, warns or does nothing. -/
def runEvents {n : ℕ} (xdata ydata : Fin n → ℝ) (convThresh convMax : ℝ) :
    List RunEvent :=
  RunEvent.savefig ::
    outcomeEvents (checkThresholds (convOrder xdata ydata) convThresh convMax)

end

/-! Helper lemmas about sums and the least-squares fit. -/

/-- Lagrange identity specialised to the slope denominator: twice the
denominator is the sum of all squared pairwise differences. -/
lemma sum_sq_pairwise {n : ℕ} (x : Fin n → ℝ) :
    ∑ i, ∑ j, (x i - x j) ^ 2 = 2 * lsqDenom x := by
  have h1 : ∀ i : Fin n,
      (∑ j, (x i - x j) ^ 2)
        = (n : ℝ) * x i ^ 2 - 2 * x i * (∑ j, x j) + (∑ j, x j ^ 2) := by
    intro i
    have h2 : ∀ j : Fin n, (x i - x j) ^ 2
        = x i ^ 2 - 2 * x i * x j + x j ^ 2 := fun j => by ring
    rw [Finset.sum_congr rfl fun j _ => h2 j, Finset.sum_add_distrib,
      Finset.sum_sub_distrib, Finset.sum_const, Finset.card_univ,
      Fintype.card_fin, nsmul_eq_mul, ← Finset.mul_sum]
  rw [Finset.sum_congr rfl fun i _ => h1 i, Finset.sum_add_distrib,
    Finset.sum_sub_distrib, Finset.sum_const, Finset.card_univ,
    Fintype.card_fin, nsmul_eq_mul, ← Finset.mul_sum, ← Finset.sum_mul,
    lsqDenom]
  have h4 : ∑ i : Fin n, 2 * x i = 2 * ∑ i, x i :=
    (Finset.mul_sum _ _ _).symm
  rw [h4]
  ring

/-- The slope denominator is positive as soon as two data abscissas
differ. -/
lemma lsqDenom_pos {n : ℕ} (x : Fin n → ℝ) (i j : Fin n)
    (hne : x i ≠ x j) : 0 < lsqDenom x := by
  have hsub : x i - x j ≠ 0 := sub_ne_zero.2 hne
  have hterm : 0 < (x i - x j) ^ 2 :=
    (sq_nonneg (x i - x j)).lt_of_ne (Ne.symm (pow_ne_zero 2 hsub))
  have hsum : 0 < ∑ a, ∑ b, (x a - x b) ^ 2 := by
    refine Finset.sum_pos' (fun a _ => Finset.sum_nonneg fun b _ => sq_nonneg _)
      ⟨i, Finset.mem_univ i, ?_⟩
    exact Finset.sum_pos' (fun b _ => sq_nonneg _) ⟨j, Finset.mem_univ j, hterm⟩
  have h2 := sum_sq_pairwise x
  linarith

lemma sum_affine {n : ℕ} (x : Fin n → ℝ) (c m : ℝ) :
    ∑ i, (c + m * x i) = (n : ℝ) * c + m * ∑ i, x i := by
  rw [Finset.sum_add_distrib, Finset.sum_const, Finset.card_univ,
    Fintype.card_fin, nsmul_eq_mul, ← Finset.mul_sum]

lemma sum_mul_affine {n : ℕ} (x : Fin n → ℝ) (c m : ℝ) :
    ∑ i, x i * (c + m * x i) = c * (∑ i, x i) + m * ∑ i, x i ^ 2 := by
  have h : ∀ i : Fin n, x i * (c + m * x i) = c * x i + m * x i ^ 2 :=
    fun i => by ring
  rw [Finset.sum_congr rfl fun i _ => h i, Finset.sum_add_distrib,
    ← Finset.mul_sum, ← Finset.mul_sum]

/-- On data lying exactly on a line, the least-squares slope is the slope
of that line. -/
lemma lsqSlope_affine {n : ℕ} (x : Fin n → ℝ) (c m : ℝ)
    (hd : lsqDenom x ≠ 0) :
    lsqSlope x (fun i => c + m * x i) = m := by
  unfold lsqSlope
  simp only
  rw [sum_mul_affine, sum_affine, div_eq_iff hd, lsqDenom]
  ring

lemma log10_pos_lt (a b : ℝ) (ha : 0 < a) (hab : a < b) :
    log10 a < log10 b := by
  unfold log10
  have h10 : 0 < Real.log 10 := Real.log_pos (by norm_num)
  exact div_lt_div_of_pos_right (Real.log_lt_log ha hab) h10

lemma log10_injOn_pos (a b : ℝ) (ha : 0 < a) (hb : 0 < b)
    (hne : a ≠ b) : log10 a ≠ log10 b := by
  rcases lt_or_gt_of_ne hne with h | h
  · exact ne_of_lt (log10_pos_lt a b ha h)
  · exact ne_of_gt (log10_pos_lt b a hb h)

/-- Base-10 log of an exact power law C * t ^ (-(p / 2)) is affine in the
base-10 log of t. -/
lemma log10_powerlaw (C p t : ℝ) (hC : 0 < C) (ht : 0 < t) :
    log10 (C * t ^ (-(p / 2))) = log10 C + -(p / 2) * log10 t := by
  unfold log10
  rw [Real.log_mul (ne_of_gt hC) (ne_of_gt (Real.rpow_pos_of_pos ht _)),
    Real.log_rpow ht]
  ring

/-- Fitted convergence order on data following an exact power law
RMSE = C * N ^ (-(p / 2)): the code recovers exactly p. -/
lemma convOrder_powerlaw {n : ℕ} (xdata : Fin n → ℝ) (p C : ℝ)
    (hp : 0 < p) (hC : 0 < C) (hpos : ∀ i, 0 < xdata i)
    (i j : Fin n) (hne : xdata i ≠ xdata j) :
    convOrder xdata (fun k => C * xdata k ^ (-(p / 2))) = p := by
  have hY : (fun k => log10 (C * xdata k ^ (-(p / 2))))
      = fun k => log10 C + -(p / 2) * log10 (xdata k) := by
    funext k
    exact log10_powerlaw C p (xdata k) hC (hpos k)
  have hXne : log10 (xdata i) ≠ log10 (xdata j) :=
    log10_injOn_pos _ _ (hpos i) (hpos j) hne
  have hd : lsqDenom (fun k => log10 (xdata k)) ≠ 0 :=
    ne_of_gt (lsqDenom_pos (fun k => log10 (xdata k)) i j hXne)
  show |lsqSlope (fun k => log10 (xdata k))
      (fun k => log10 (C * xdata k ^ (-(p / 2))))| * 2 = p
  rw [hY, lsqSlope_affine (fun k => log10 (xdata k)) (log10 C) (-(p / 2)) hd,
    abs_neg, abs_of_pos (by positivity : (0 : ℝ) < p / 2)]
  ring

/-- Concrete end-to-end fit: the three cell counts 100, 400, 1600 with
RMSE values 0.1, 0.025, 0.00625 lie exactly on a second-order decay and
the fitted convergence order is exactly two. -/
lemma convOrder_concrete :
    convOrder ![100, 400, 1600] ![0.1, 0.025, 0.00625] = 2 := by
  have hlist : (![0.1, 0.025, 0.00625] : Fin 3 → ℝ)
      = fun k => 10 * (![100, 400, 1600] : Fin 3 → ℝ) k ^ (-((2 : ℝ) / 2)) := by
    funext k
    have he : (-((2 : ℝ) / 2)) = -1 := by norm_num
    fin_cases k <;>
      simp [he, Real.rpow_neg_one, Matrix.cons_val_zero, Matrix.cons_val_one,
        Matrix.head_cons] <;> norm_num
  rw [hlist]
  refine convOrder_powerlaw ![100, 400, 1600] 2 10 (by norm_num) (by norm_num)
    ?_ 0 1 ?_
  · intro k
    fin_cases k <;> norm_num [Matrix.cons_val_zero, Matrix.cons_val_one,
      Matrix.head_cons]
  · norm_num [Matrix.cons_val_zero, Matrix.cons_val_one, Matrix.head_cons]

/-- First normal equation of the least-squares line: the residuals sum
to zero. -/
lemma lsq_residual_sum {n : ℕ} (x y : Fin n → ℝ) (hn : (n : ℝ) ≠ 0) :
    ∑ i, (y i - (lsqSlope x y * x i + lsqIntercept x y)) = 0 := by
  have hexp : ∑ i, (y i - (lsqSlope x y * x i + lsqIntercept x y))
      = (∑ i, y i) - lsqSlope x y * (∑ i, x i)
        - (n : ℝ) * lsqIntercept x y := by
    rw [Finset.sum_sub_distrib, Finset.sum_add_distrib, ← Finset.mul_sum,
      Finset.sum_const, Finset.card_univ, Fintype.card_fin, nsmul_eq_mul]
    ring
  rw [hexp, lsqIntercept]
  field_simp

/-- Second normal equation of the least-squares line: the residuals are
orthogonal to the abscissas. -/
lemma lsq_residual_dot {n : ℕ} (x y : Fin n → ℝ) (hn : (n : ℝ) ≠ 0)
    (hd : lsqDenom x ≠ 0) :
    ∑ i, x i * (y i - (lsqSlope x y * x i + lsqIntercept x y)) = 0 := by
  have hexp : ∑ i, x i * (y i - (lsqSlope x y * x i + lsqIntercept x y))
      = (∑ i, x i * y i) - lsqSlope x y * (∑ i, x i ^ 2)
        - lsqIntercept x y * (∑ i, x i) := by
    have h : ∀ i : Fin n,
        x i * (y i - (lsqSlope x y * x i + lsqIntercept x y))
          = x i * y i - lsqSlope x y * x i ^ 2
            - lsqIntercept x y * x i := fun i => by ring
    rw [Finset.sum_congr rfl fun i _ => h i, Finset.sum_sub_distrib,
      Finset.sum_sub_distrib, ← Finset.mul_sum, ← Finset.mul_sum]
  rw [hexp, lsqIntercept, lsqSlope, lsqDenom]
  have hd2 : (n : ℝ) * (∑ i, x i ^ 2) - (∑ i, x i) ^ 2 ≠ 0 := by
    rw [lsqDenom] at hd
    exact hd
  field_simp
  ring

/-- The closed-form coefficients minimize the sum of squared residuals:
this is what entitles lsqSlope to the name least-squares slope. -/
lemma lsqSSE_min {n : ℕ} (x y : Fin n → ℝ) (hn : (n : ℝ) ≠ 0)
    (hd : lsqDenom x ≠ 0) (m2 b2 : ℝ) :
    lsqSSE x y (lsqSlope x y) (lsqIntercept x y) ≤ lsqSSE x y m2 b2 := by
  set m := lsqSlope x y with hm
  set b := lsqIntercept x y with hb
  have key : lsqSSE x y m2 b2
      = lsqSSE x y m b
        + 2 * ((m - m2) * (∑ i, x i * (y i - (m * x i + b)))
          + (b - b2) * (∑ i, (y i - (m * x i + b))))
        + ∑ i, ((m - m2) * x i + (b - b2)) ^ 2 := by
    unfold lsqSSE
    have hpt : ∀ i : Fin n, (y i - (m2 * x i + b2)) ^ 2
        = (y i - (m * x i + b)) ^ 2
          + 2 * ((m - m2) * (x i * (y i - (m * x i + b)))
            + (b - b2) * (y i - (m * x i + b)))
          + ((m - m2) * x i + (b - b2)) ^ 2 := fun i => by ring
    rw [Finset.sum_congr rfl fun i _ => hpt i, Finset.sum_add_distrib,
      Finset.sum_add_distrib, ← Finset.mul_sum, Finset.sum_add_distrib,
      ← Finset.mul_sum, ← Finset.mul_sum]
  rw [key, lsq_residual_dot x y hn hd, lsq_residual_sum x y hn]
  have hnonneg : 0 ≤ ∑ i, ((m - m2) * x i + (b - b2)) ^ 2 :=
    Finset.sum_nonneg fun i _ => sq_nonneg _
  linarith

/-! Claim theorems. -/

/-- C1: on a forward output whose time coordinate holds no step matching
the configured evaluation time (here a single day-1 stamp against
evaluation time 2), the time-matching phase of rmse does not fail with an
explicit "no matching time step" error: it fails through the unbound
local variable sliceTime. This demonstrates the divergence between the
claimed behavior and the code. -/
theorem C1_no_match_unbound_local :
    timeMatch [⟨1, 0, 0⟩] 2
        = Except.error (TimeMatchFailure.unboundLocalVar "sliceTime") ∧
      ∀ msg, timeMatch [⟨1, 0, 0⟩] 2
        ≠ Except.error (TimeMatchFailure.explicitNoMatch msg) := by
  have hf : findSliceTime [⟨1, 0, 0⟩] 2 = none := by
    unfold findSliceTime
    rw [if_neg (by norm_num)]
    rfl
  constructor
  · unfold timeMatch
    rw [hf]
  · intro msg hcontra
    unfold timeMatch at hcontra
    rw [hf] at hcontra
    simp at hcontra

/-- C3: the elapsed time of rmse at day count 2, hour 3, minute 30 is
183630, not the 185400 elapsed seconds those fields represent, because the
code adds the minute field without the factor of 60. -/
theorem C3_minutes_unscaled :
    tElapsed 2 3 30 = 183630 ∧
      (86400 * (2 : ℝ) + 3600 * 3 + 60 * 30 = 185400) ∧
      tElapsed 2 3 30 ≠ 86400 * 2 + 3600 * 3 + 60 * 30 := by
  refine ⟨by norm_num [tElapsed], by norm_num, by norm_num [tElapsed]⟩

/-- C2 counterexample: with center longitude 0 and a computed drift of
five pi (past two pi, so squarely in the case the claim covers), the new
longitude produced by the code is three pi, which does not lie in
[0, two pi): the single conditional subtraction does not wrap. -/
theorem C2_counterexample :
    newLon 0 (5 * Real.pi) = 3 * Real.pi ∧
      ¬ newLon 0 (5 * Real.pi) < 2 * Real.pi := by
  have hpi := Real.pi_pos
  have h1 : (0 : ℝ) + 5 * Real.pi > 2 * Real.pi := by linarith
  constructor
  · unfold newLon
    rw [if_pos h1]
    ring
  · unfold newLon
    rw [if_pos h1]
    intro h
    linarith

/-- C2 amended: the new longitude is the sum of the center longitude and
the drift, reduced by two pi exactly once when that sum strictly exceeds
two pi; in particular, for center longitude 0 and any drift strictly
between two pi and four pi (which covers every drift the code computes
for a matched evaluation time of at least one day), the result lies in
[0, two pi). -/
theorem C2_wrap_once (lonCent dRad : ℝ) :
    newLon lonCent dRad
        = (if 2 * Real.pi < lonCent + dRad then lonCent + dRad - 2 * Real.pi
           else lonCent + dRad) ∧
      (2 * Real.pi < dRad → dRad < 4 * Real.pi →
        0 ≤ newLon 0 dRad ∧ newLon 0 dRad < 2 * Real.pi) := by
  constructor
  · rfl
  · intro h1 h2
    have h3 : (0 : ℝ) + dRad > 2 * Real.pi := by linarith
    unfold newLon
    rw [if_pos h3]
    constructor <;> linarith

/-- C2 witness: the amended wrap statement at the concrete drift of
three pi. -/
theorem C2_wrap_once_witness :
    0 ≤ newLon 0 (3 * Real.pi) ∧ newLon 0 (3 * Real.pi) < 2 * Real.pi :=
  (C2_wrap_once 0 (3 * Real.pi)).2
    (by linarith [Real.pi_pos]) (by linarith [Real.pi_pos])

/-- C5 counterexample: with convergence order 2 and the threshold pair
(3, 1), the code raises the failure (2 < 3) and never reaches the warning
branch, while the claimed biconditional demands a warning because
2 exceeds the maximum 1. -/
theorem C5_counterexample :
    ¬ (((checkThresholds 2 3 1 = Outcome.fail) ↔ ((2 : ℝ) < 3)) ∧
       ((checkThresholds 2 3 1 = Outcome.warned) ↔ ((1 : ℝ) < 2))) := by
  intro hcl
  have hfail : checkThresholds 2 3 1 = Outcome.fail := by
    unfold checkThresholds
    rw [if_pos (by norm_num)]
  have hw := hcl.2.2 (by norm_num)
  rw [hfail] at hw
  exact Outcome.noConfusion hw

/-- C5 amended: provided the threshold pair is ordered
(conv_thresh at most conv_max), run raises exactly when the order is
below conv_thresh and warns exactly when it is above conv_max; the order
exactly at conv_thresh does not fail and exactly at conv_max does not
warn. -/
theorem C5_threshold_logic (conv convThresh convMax : ℝ)
    (hcm : convThresh ≤ convMax) :
    ((checkThresholds conv convThresh convMax = Outcome.fail)
        ↔ conv < convThresh) ∧
      ((checkThresholds conv convThresh convMax = Outcome.warned)
        ↔ convMax < conv) ∧
      checkThresholds convThresh convThresh convMax ≠ Outcome.fail ∧
      checkThresholds convMax convThresh convMax ≠ Outcome.warned := by
  refine ⟨?_, ?_, ?_, ?_⟩
  · unfold checkThresholds
    split_ifs with h1 h2 <;> simp_all
  · unfold checkThresholds
    split_ifs with h1 h2 <;> simp_all
    linarith
  · unfold checkThresholds
    split_ifs with h1 h2 <;> simp_all
  · unfold checkThresholds
    split_ifs with h1 h2 <;> simp_all

/-- C5 witness: the amended threshold logic at the concrete order 2.5
with the ordered pair (1.8, 2.2), where the code warns and does not
fail. -/
theorem C5_threshold_logic_witness :
    ((checkThresholds 2.5 1.8 2.2 = Outcome.fail) ↔ ((2.5 : ℝ) < 1.8)) ∧
      ((checkThresholds 2.5 1.8 2.2 = Outcome.warned) ↔ ((2.2 : ℝ) < 2.5)) ∧
      checkThresholds 1.8 1.8 2.2 ≠ Outcome.fail ∧
      checkThresholds 2.2 1.8 2.2 ≠ Outcome.warned :=
  C5_threshold_logic 2.5 1.8 2.2 (by norm_num)

/-- C4: the convergence order computed by run is the absolute value of
the least-squares slope of the base-10 log RMSE against the base-10 log
cell count, doubled, and is therefore non-negative. The lemmas
lsq_residual_sum, lsq_residual_dot and lsqSSE_min establish that lsqSlope
is the least-squares slope. -/
theorem C4_conv_order {n : ℕ} (xdata ydata : Fin n → ℝ) (hn : 2 ≤ n)
    (hx : ∀ i, 0 < xdata i) (hy : ∀ i, 0 < ydata i) :
    convOrder xdata ydata
        = |lsqSlope (fun i => log10 (xdata i)) (fun i => log10 (ydata i))| * 2 ∧
      0 ≤ convOrder xdata ydata :=
  ⟨rfl, mul_nonneg (abs_nonneg _) (by norm_num)⟩

/-- C4 witness: the convergence-order identity at the concrete data set
with cell counts (10, 100) and RMSE values (1, 2). -/
theorem C4_conv_order_witness :
    convOrder ![10, 100] ![1, 2]
        = |lsqSlope (fun i => log10 ((![10, 100] : Fin 2 → ℝ) i))
            (fun i => log10 ((![1, 2] : Fin 2 → ℝ) i))| * 2 ∧
      0 ≤ convOrder ![10, 100] ![1, 2] :=
  C4_conv_order ![10, 100] ![1, 2] (by norm_num)
    (by intro i; fin_cases i <;> norm_num)
    (by intro i; fin_cases i <;> norm_num)

/-- C8: on synthetic RMSE values following RMSE = C * N ^ (-(p / 2))
exactly, over at least two distinct positive cell counts, the fitted
convergence order recovers p exactly, hence in particular to within
1e-6. -/
theorem C8_powerlaw_recovery {n : ℕ} (xdata : Fin n → ℝ) (p C : ℝ)
    (hp : 0 < p) (hC : 0 < C) (hpos : ∀ i, 0 < xdata i)
    (i j : Fin n) (hne : xdata i ≠ xdata j) :
    convOrder xdata (fun k => C * xdata k ^ (-(p / 2))) = p ∧
      |convOrder xdata (fun k => C * xdata k ^ (-(p / 2))) - p| < 1e-6 := by
  have h := convOrder_powerlaw xdata p C hp hC hpos i j hne
  refine ⟨h, ?_⟩
  rw [h]
  norm_num

/-- C8 witness: exact recovery of order two from the two cell counts
(10, 100) with C = 1. -/
theorem C8_powerlaw_recovery_witness :
    convOrder ![10, 100]
        (fun k => 1 * (![10, 100] : Fin 2 → ℝ) k ^ (-((2 : ℝ) / 2))) = 2 ∧
      |convOrder ![10, 100]
        (fun k => 1 * (![10, 100] : Fin 2 → ℝ) k ^ (-((2 : ℝ) / 2))) - 2| < 1e-6 :=
  C8_powerlaw_recovery ![10, 100] 2 1 (by norm_num) (by norm_num)
    (by intro i; fin_cases i <;> norm_num) 0 1 (by norm_num)

/-- C9: the end-to-end scenario with cell counts 100, 400, 1600 and RMSE
values 0.1, 0.025, 0.00625 yields fitted convergence order exactly 2,
and against the threshold pair (1.8, 2.2) run neither raises nor warns:
the only event of the tail of run is saving the plot. -/
theorem C9_end_to_end :
    convOrder ![100, 400, 1600] ![0.1, 0.025, 0.00625] = 2 ∧
      checkThresholds (convOrder ![100, 400, 1600] ![0.1, 0.025, 0.00625])
        1.8 2.2 = Outcome.pass ∧
      runEvents ![100, 400, 1600] ![0.1, 0.025, 0.00625] 1.8 2.2
        = [RunEvent.savefig] := by
  have hpass : checkThresholds 2 1.8 2.2 = Outcome.pass := by
    unfold checkThresholds
    rw [if_neg (by norm_num), if_neg (by norm_num)]
  refine ⟨convOrder_concrete, ?_, ?_⟩
  · rw [convOrder_concrete]
    exact hpass
  · unfold runEvents
    rw [convOrder_concrete, hpass]
    rfl

/-- C10: whenever the convergence order falls below the minimum threshold
the event trace of the tail of run is the save of convergence.png
followed by the raised failure: the plot is written before the error is
raised. -/
theorem C10_plot_before_failure {n : ℕ} (xdata ydata : Fin n → ℝ)
    (convThresh convMax : ℝ) (h : convOrder xdata ydata < convThresh) :
    runEvents xdata ydata convThresh convMax
      = [RunEvent.savefig, RunEvent.raiseFail] := by
  unfold runEvents checkThresholds
  rw [if_pos h]
  rfl

/-- C10 witness: the concrete second-order data set against minimum
threshold 3 fails, and the trace still starts with the plot save. -/
theorem C10_plot_before_failure_witness :
    runEvents ![100, 400, 1600] ![0.1, 0.025, 0.00625] 3 4
      = [RunEvent.savefig, RunEvent.raiseFail] :=
  C10_plot_before_failure ![100, 400, 1600] ![0.1, 0.025, 0.00625] 3 4
    (by rw [convOrder_concrete]; norm_num)

/-- C7: the RMSE of rmse is non-negative, is unchanged when the modeled
and analytic fields are swapped, and vanishes exactly when the two fields
are identical. -/
theorem C7_rmse_properties {n : ℕ} (modeled analytic : Fin n → ℝ) :
    0 ≤ rmseOf modeled analytic ∧
      rmseOf modeled analytic = rmseOf analytic modeled ∧
      (rmseOf modeled analytic = 0 ↔ modeled = analytic) := by
  refine ⟨Real.sqrt_nonneg _, ?_, ?_⟩
  · unfold rmseOf
    congr 2
    exact Finset.sum_congr rfl fun i _ => by ring
  · unfold rmseOf
    rw [Real.sqrt_eq_zero']
    constructor
    · intro h
      rcases Nat.eq_zero_or_pos n with h0 | hposn
      · subst h0
        funext i
        exact i.elim0
      · have hnr : (0 : ℝ) < (n : ℝ) := by exact_mod_cast hposn
        have hsum_nonneg : 0 ≤ ∑ i, (modeled i - analytic i) ^ 2 :=
          Finset.sum_nonneg fun i _ => sq_nonneg _
        have hle : (∑ i, (modeled i - analytic i) ^ 2) ≤ 0 := by
          by_contra hlt
          push_neg at hlt
          have := div_pos hlt hnr
          linarith
        have hsum0 : (∑ i, (modeled i - analytic i) ^ 2) = 0 :=
          le_antisymm hle hsum_nonneg
        have hall := (Finset.sum_eq_zero_iff_of_nonneg
          fun i _ => sq_nonneg (modeled i - analytic i)).1 hsum0
        funext i
        have h2 := hall i (Finset.mem_univ i)
        exact sub_eq_zero.1 (sq_eq_zero_iff.1 h2)
    · intro h
      rw [h]
      simp

/-- Great-circle distance of the test cell: center at latitude 0,
longitude 0 on the unit sphere, the cell at latitude 0, longitude one
half; the distance is one half. -/
lemma greatCircleDist_test : greatCircleDist 1 0 0 (1 / 2) 0 = 1 / 2 := by
  unfold greatCircleDist
  rw [Real.sin_zero, Real.cos_zero]
  have hcos : (0 : ℝ) * 0 + 1 * 1 * Real.cos ((1 : ℝ) / 2 - 0)
      = Real.cos ((1 : ℝ) / 2) := by
    norm_num
  rw [hcos, Real.arccos_cos (by norm_num)
    (by linarith [Real.pi_gt_three]), one_mul]

/-- Cosine of half the pi literal of the source is not zero: otherwise
3.1415926 would be an odd integer multiple of pi, contradicting the
irrationality of pi. -/
lemma cos_half_pi_literal_ne_zero : Real.cos (3.1415926 / 2) ≠ 0 := by
  intro hcos0
  rw [Real.cos_eq_zero_iff] at hcos0
  obtain ⟨k, hk⟩ := hcos0
  have hk0 : (2 * k + 1 : ℤ) ≠ 0 := by omega
  have hk0R : ((2 * k + 1 : ℤ) : ℝ) ≠ 0 := Int.cast_ne_zero.2 hk0
  have hpi_eq : Real.pi = 3.1415926 / ((2 * k + 1 : ℤ) : ℝ) := by
    rw [eq_div_iff hk0R]
    push_cast at hk ⊢
    nlinarith [hk]
  refine irrational_pi ⟨(31415926 : ℚ) / (10000000 * (2 * k + 1 : ℤ)), ?_⟩
  rw [hpi_eq]
  push_cast
  rw [← div_div]
  norm_num

/-- C6 counterexample: at the cell of greatCircleDist_test the distance
is one half of the bell radius one, and with amplitude two the code
computes 1 + cos(3.1415926 / 2), which differs from the claimed value
(amplitude / 2) * (1 + cos(pi * d / radius)) = 1 because the source uses
the literal 3.1415926 in place of pi. -/
theorem C6_counterexample :
    analyticTracer 1 0 0 1 2 0 (1 / 2)
      ≠ 2 / 2 * (1 + Real.cos (Real.pi * greatCircleDist 1 0 0 (1 / 2) 0 / 1)) := by
  have hd := greatCircleDist_test
  have hcode : analyticTracer 1 0 0 1 2 0 (1 / 2)
      = 1 + Real.cos (3.1415926 / 2) := by
    unfold analyticTracer
    rw [hd, if_pos (by norm_num)]
    norm_num
  have hclaim : (2 : ℝ) / 2
      * (1 + Real.cos (Real.pi * greatCircleDist 1 0 0 (1 / 2) 0 / 1)) = 1 := by
    rw [hd]
    have harg : Real.pi * (1 / 2 : ℝ) / 1 = Real.pi / 2 := by ring
    rw [harg, Real.cos_pi_div_two]
    norm_num
  rw [hcode, hclaim]
  intro hcontra
  exact cos_half_pi_literal_ne_zero (by linarith)

/-- C6 amended: at every cell the analytic tracer of the code is zero
when the great-circle distance is at least the bell radius, and is
(amplitude / 2) * (1 + cos(3.1415926 * d / radius)) when the distance is
below the radius — the formula of the claim with the pi literal of the
source in place of pi. -/
theorem C6_tracer_formula (R latCent nLon radius psi0 lat lon : ℝ) :
    (radius ≤ greatCircleDist R latCent lat lon nLon →
      analyticTracer R latCent nLon radius psi0 lat lon = 0) ∧
      (greatCircleDist R latCent lat lon nLon < radius →
        analyticTracer R latCent nLon radius psi0 lat lon
          = psi0 / 2
            * (1 + Real.cos (3.1415926
              * greatCircleDist R latCent lat lon nLon / radius))) := by
  constructor
  · intro h
    unfold analyticTracer
    rw [if_neg (not_lt.2 h)]
  · intro h
    unfold analyticTracer
    rw [if_pos h]

/-- C6 witness: the amended tracer formula evaluated at the concrete cell
of greatCircleDist_test, inside the bell. -/
theorem C6_tracer_formula_witness :
    analyticTracer 1 0 0 1 2 0 (1 / 2)
      = 2 / 2
        * (1 + Real.cos (3.1415926 * greatCircleDist 1 0 0 (1 / 2) 0 / 1)) :=
  (C6_tracer_formula 1 0 0 1 2 0 (1 / 2)).2
    (by rw [greatCircleDist_test]; norm_num)

end Polaris
